import Mathlib

/-!
Verification of the interactive record-browser core of `atmn-cli-max`.

The development shallowly embeds the relevant TypeScript from
`src/json-renderer.tsx`, `src/external-actions.tsx` and the credit-system
module.  JavaScript numbers are modelled as rationals (`ℚ`), JavaScript
`Map`/`Set` objects as association lists / lists with set-like operations
matching `Map.set`, `Set.add` and `Set.delete`, and asynchronous handlers as
functions returning an `Option`al thrown-error message.  React `useState`
state is threaded explicitly; a closure that captured a state variable at
render time receives that captured snapshot as an explicit argument.
-/

/- ### JavaScript string primitives

`String.prototype.startsWith` and `String.prototype.includes`, implemented
over character lists so that concrete instances reduce in the kernel. -/

/-- Character-list version of "the first list is an initial segment of the
second", used to model `String.prototype.startsWith`. -/
def leadMatch : List Char → List Char → Bool
  | [], _ => true
  | _ :: _, [] => false
  | a :: as, b :: bs => a == b && leadMatch as bs

/-- Character-list version of contiguous-substring search, used to model
`String.prototype.includes`. -/
def subMatch (needle : List Char) : List Char → Bool
  | [] => leadMatch needle []
  | c :: cs => leadMatch needle (c :: cs) || subMatch needle cs

/-- Model of `s.startsWith(pre)`. -/
def jsStartsWith (s pre : String) : Bool := leadMatch pre.data s.data

/-- Model of `s.includes(sub)`. -/
def jsIncludes (s sub : String) : Bool := subMatch sub.data s.data

/-- JavaScript whitespace, as far as the queries of this program use it. -/
def jsIsSpace (c : Char) : Bool := c == ' ' || c == '\t' || c == '\n' || c == '\r'

/-- Model of the truthiness test `!!s.trim()`: `true` iff `s` has a
non-whitespace character. -/
def trimNonEmpty (s : String) : Bool := s.data.any (fun c => !(jsIsSpace c))

/- ### Per-item execution status (json-renderer.tsx, `migrationStatuses`) -/

/-- The four lifecycle states of `migrationStatuses` entries
(pending, in_progress, completed, failed). -/
inductive MigStatus where
  | pending
  | in_progress
  | completed
  | failed
deriving DecidableEq

/-- One value of the `migrationStatuses` map:
`{ status: ..., message?: string }`. -/
structure StatusEntry where
  status : MigStatus
  message : Option String
deriving DecidableEq

/-- The `migrationStatuses` JavaScript `Map`, as an association list in
insertion order. -/
abbrev MigMap := List (String × StatusEntry)

/-- Model of `Map.prototype.get`. -/
def mapGet (m : MigMap) (k : String) : Option StatusEntry :=
  (m.find? (fun p => p.1 == k)).map Prod.snd

/-- Model of `Map.prototype.set`: replaces the value when the key is present,
appends otherwise. -/
def mapSet (m : MigMap) (k : String) (v : StatusEntry) : MigMap :=
  if m.any (fun p => p.1 == k) then
    m.map (fun p => if p.1 == k then (k, v) else p)
  else
    m ++ [(k, v)]

/-- The key sequence of the map. -/
def mapKeys (m : MigMap) : List String := m.map Prod.fst

/- ### Status-message classifier (json-renderer.tsx lines 1036–1047) -/

/-- The free-text classifier inside `batchStatusCallback`:
`status.startsWith("ERROR:") || status.includes("failed")` gives `failed`;
otherwise `status.includes("completed successfully") ||
status.includes("No migration required")` gives `completed`;
otherwise `in_progress`. -/
def classifyStatus (status : String) : MigStatus :=
  if jsStartsWith status "ERROR:" || jsIncludes status "failed" then
    .failed
  else if jsIncludes status "completed successfully" || jsIncludes status "No migration required" then
    .completed
  else
    .in_progress

/-- Model of `batchStatusCallback(customerId, status)` from `handleBatchAction`:
classifies the message and writes
`{ status: finalStatus, message: status }` into the live status map.
The source callback carries no session token; it writes unconditionally
into whatever map is current. -/
def batchStatusCallback (m : MigMap) (customerId status : String) : MigMap :=
  mapSet m customerId { status := classifyStatus status, message := some status }

/-- Applies a sequence of `batchStatusCallback` invocations
(pairs of `(customerId, message)`) to the live status map in order. -/
def applyCallbacks (m : MigMap) : List (String × String) → MigMap
  | [] => m
  | (cid, msg) :: rest => applyCallbacks (batchStatusCallback m cid msg) rest

/-- The status-map initialisation of `handleBatchAction`:
`selectedCustomers.forEach(c => initialStatuses.set(c.customer.id, ...))`, every value pending. -/
def initStatuses (ids : List String) : MigMap :=
  ids.foldl (fun m i => mapSet m i { status := .pending, message := none }) []

/-- The `catch` block of `handleBatchAction` (lines 1052–1063).  `snap` is
the value of the `migrationStatuses` state variable captured by the closure
at the render in which the handler was created (NOT the live map: the
`const currentStatus = migrationStatuses.get(...)` read goes through the
captured binding).  `live` is the map actually updated through the
functional `setMigrationStatuses` updates. -/
def abortStep (snap : MigMap) (errMsg : String) (acc : MigMap) (cid : String) : MigMap :=
  match mapGet snap cid with
  | none => mapSet acc cid { status := .failed, message := some errMsg }
  | some st =>
      if st.status = .pending ∨ st.status = .in_progress then
        mapSet acc cid { status := .failed, message := some errMsg }
      else
        acc

/-- The `selectedCustomers.forEach` loop of the same `catch` block, one
`abortStep` per selected id. -/
def abortHandler (snap : MigMap) (ids : List String) (errMsg : String) (live : MigMap) : MigMap :=
  ids.foldl (abortStep snap errMsg) live

/-- One complete batch run of the migrate path of `handleBatchAction`:
initialise every selected id to `pending`, apply the callback invocations
that occurred while `executeBatchAction` ran, and, if the call threw
(`err = some e`), run the catch block with the stale snapshot `snap`.
In every reachable execution `snap` is the pre-batch (empty) map. -/
def runMigrationBatch (snap : MigMap) (ids : List String) (events : List (String × String))
    (err : Option String) : MigMap :=
  let live := applyCallbacks (initStatuses ids) events
  match err with
  | none => live
  | some e => abortHandler snap ids e live

/- ### Sequential fallback of `executeBatchAction` (external-actions.tsx lines 109–140)

The handler of an action is modelled by its observable outcome on one
invocation: `none` for a normal return (or resolved promise) and
`some e` for a thrown/rejected error message `e`. -/

/-- The fallback loop of `executeBatchAction` for an action without a
`batchHandler`: iterate the ids in order, pairing `customerIds[i]` with
`customers[i]`; skip an index whose id is falsy (the empty string) or whose customer
is missing (`undefined`), logging only; call the single handler otherwise
and await it; a thrown error aborts the loop and propagates.
Returns the list of ids whose handler was invoked, in invocation order,
together with the propagated error, if any. -/
def executeBatchFallback {α : Type} (handler : String → α → Option String) :
    List String → List (Option α) → List String × Option String
  | [], _ => ([], none)
  | _ :: ids, [] => executeBatchFallback handler ids []
  | cid :: ids, c? :: custs =>
    match c? with
    | none => executeBatchFallback handler ids custs
    | some c =>
      if cid = "" then
        executeBatchFallback handler ids custs
      else
        match handler cid c with
        | some e => ([cid], some e)
        | none =>
          let r := executeBatchFallback handler ids custs
          (cid :: r.1, r.2)

/-- Modelled from the spec: the id/customer pairs of the batch that are
well-formed (id present and non-empty, customer present), in input order —
the pairs the spec says the sequential fallback must process. -/
def validPairs {α : Type} : List String → List (Option α) → List (String × α)
  | [], _ => []
  | _ :: ids, [] => validPairs ids []
  | cid :: ids, c? :: custs =>
    match c? with
    | none => validPairs ids custs
    | some c =>
      if cid = "" then validPairs ids custs
      else (cid, c) :: validPairs ids custs

/-- Modelled from the spec: strictly sequential execution over a list of
well-formed pairs — each handler call settles before the next is issued,
and a thrown error stops the run immediately and propagates. -/
def seqRun {α : Type} (handler : String → α → Option String) :
    List (String × α) → List String × Option String
  | [] => ([], none)
  | (cid, c) :: rest =>
    match handler cid c with
    | some e => ([cid], some e)
    | none =>
      let r := seqRun handler rest
      (cid :: r.1, r.2)

/- ### Credit system (credit-system module, `getCustomerCredits`/`getCreditBalance`) -/

/-- Model of `Math.max(0, x)` over the rational model of JavaScript numbers. -/
def jsMax (a b : ℚ) : ℚ := if a ≤ b then b else a

/-- One credit configuration (`CreditConfig`); the presentation-only
`formatter` field is omitted. -/
structure CreditConfig where
  key : String
  name : String
  displayName : String
  currency : String
  divisor : ℚ
deriving DecidableEq

/-- Model of `CreditSystemConfig`: a primary credit and optional secondary credits. -/
structure CreditSystemConfig where
  primary : CreditConfig
  secondary : Option (List CreditConfig)

/-- One entry of `customer.features`: an object with an optional `balance`. -/
structure CreditFeature where
  balance : Option ℚ
deriving DecidableEq

/-- One entry of `customer.products`. -/
structure ProductInfo where
  id : Option String
  name : Option String
  status : Option String
  group : Option String
deriving DecidableEq

/-- The `Customer` record (customer-details module); `features` is the
JavaScript object used as a string-keyed dictionary. -/
structure Customer where
  id : String
  name : Option String
  email : Option String
  products : Option (List ProductInfo)
  features : String → Option CreditFeature

/-- The result object of `getCustomerCredits`; per-credit `formatted`
strings and the echoed `config` of the primary credit are presentation
only and omitted. -/
structure CustomerCredits where
  primaryAmount : ℚ
  secondary : List (CreditConfig × ℚ)
  total : ℚ

/-- The per-feature credit amount
`credit ? Math.max(0, -(credit.balance ?? 0) / divisor) : 0`, shared by
`getCustomerCredits` and `getCreditBalance`. -/
def featureCreditAmount (credit : Option CreditFeature) (divisor : ℚ) : ℚ :=
  match credit with
  | none => 0
  | some credit => jsMax 0 (-(credit.balance.getD 0) / divisor)

/-- Model of `getCustomerCredits(customer, config)`: per-credit amounts via
`featureCreditAmount`, and the total is the primary amount plus the sum of
the secondary amounts. -/
def getCustomerCredits (customer : Customer) (config : CreditSystemConfig) : CustomerCredits :=
  let primaryAmount : ℚ :=
    featureCreditAmount (customer.features config.primary.key) config.primary.divisor
  let secondaryCredits := (config.secondary.getD []).map (fun creditConfig =>
    (creditConfig, featureCreditAmount (customer.features creditConfig.key) creditConfig.divisor))
  { primaryAmount := primaryAmount
    secondary := secondaryCredits
    total := primaryAmount + secondaryCredits.foldl (fun sum sc => sum + sc.2) 0 }

/-- Model of `getCreditBalance(customer, creditKey, divisor)`. -/
def getCreditBalance (customer : Customer) (creditKey : String) (divisor : ℚ) : ℚ :=
  featureCreditAmount (customer.features creditKey) divisor

/- ### Filter/sort pipeline (json-renderer.tsx lines 940–984, `sortedCustomers`) -/

/-- Model of `String.prototype.toLowerCase`, restricted to the per-character map. -/
def strToLower (s : String) : String := ⟨s.data.map Char.toLower⟩

/-- Truthiness of an optional string (`plan.id &&`-style tests). -/
def strTruthy : Option String → Bool
  | none => false
  | some s => !(s == "")

/-- Model of `getPlanPrice(plan)`: `0` for a missing plan, else the live price under
the plan `id` when that is truthy and priced, else under the plan
`name` when that is truthy and priced, else `0`. -/
def getPlanPrice (livePlanPrices : String → Option ℚ) (plan : Option ProductInfo) : ℚ :=
  match plan with
  | none => 0
  | some p =>
    match (if strTruthy p.id then p.id.bind livePlanPrices else none) with
    | some v => v
    | none =>
      match (if strTruthy p.name then p.name.bind livePlanPrices else none) with
      | some v => v
      | none => 0

/-- The per-customer row built by the `.map` step of `sortedCustomers`. -/
structure CustomerEntry where
  customer : Customer
  planPrice : ℚ
  creditsUsed : ℚ
  totalValue : ℚ
  searchableText : String

/-- The `.map` body of `sortedCustomers`: derived credits total, active
plan price, their sum `totalValue`, and the lowercase searchable text. -/
def mkCustomerEntry (cfg : CreditSystemConfig) (livePlanPrices : String → Option ℚ)
    (customer : Customer) : CustomerEntry :=
  let credits := getCustomerCredits customer cfg
  let activePlan := (customer.products.getD []).find?
    (fun p => p.status == some "active" && p.group == some "plan")
  let planPrice := getPlanPrice livePlanPrices activePlan
  { customer := customer
    planPrice := planPrice
    creditsUsed := credits.total
    totalValue := planPrice + credits.total
    searchableText := strToLower (customer.name.getD "" ++ " " ++ customer.email.getD "" ++ " " ++ customer.id) }

/-- The default sort relation (no active query): descending `totalValue`. -/
def entryValueGe (a b : CustomerEntry) : Prop := b.totalValue ≤ a.totalValue

instance : DecidableRel entryValueGe :=
  fun a b => inferInstanceAs (Decidable (b.totalValue ≤ a.totalValue))

instance : IsTotal CustomerEntry entryValueGe :=
  ⟨fun a b => le_total b.totalValue a.totalValue⟩

instance : IsTrans CustomerEntry entryValueGe :=
  ⟨fun _ _ _ h1 h2 => le_trans h2 h1⟩

/-- The effective relevance value of `fuzzysort.single(query, text)?.score
|| -Infinity`: a missing match, and also the perfect score `0` (which is
falsy), collapse to `-Infinity` (`⊥`). -/
def scoreVal : Option ℚ → WithBot ℚ
  | none => ⊥
  | some s => if s = 0 then ⊥ else (s : WithBot ℚ)

/-- The query-active sort relation: descending fuzzy relevance score. -/
def scoreGe (fuzzy : String → String → Option ℚ) (query : String) (a b : CustomerEntry) : Prop :=
  scoreVal (fuzzy query b.searchableText) ≤ scoreVal (fuzzy query a.searchableText)

instance (fuzzy : String → String → Option ℚ) (query : String) :
    DecidableRel (scoreGe fuzzy query) :=
  fun a b =>
    inferInstanceAs (Decidable (scoreVal (fuzzy query b.searchableText) ≤ scoreVal (fuzzy query a.searchableText)))

/-- Model of `sortedCustomers` (json-renderer.tsx lines 951–978): map customers to
entries, drop zero-credit entries while `hideZeroCreditUsers`, drop
non-matching entries while a query is active, then sort — by descending
fuzzy score when a query is active, else by descending `totalValue`.
The fuzzy scorer of the external `fuzzysort` library is a parameter. -/
def sortedCustomers (fuzzy : String → String → Option ℚ) (cfg : CreditSystemConfig)
    (livePlanPrices : String → Option ℚ) (hideZeroCreditUsers : Bool)
    (fuzzySearchQuery : String) (customers : List Customer) : List CustomerEntry :=
  let mapped := customers.map (mkCustomerEntry cfg livePlanPrices)
  let zeroFiltered := mapped.filter (fun e => !hideZeroCreditUsers || 0 < e.creditsUsed)
  let queryFiltered := zeroFiltered.filter
    (fun e => !trimNonEmpty fuzzySearchQuery || (fuzzy fuzzySearchQuery e.searchableText).isSome)
  if trimNonEmpty fuzzySearchQuery then
    List.insertionSort (scoreGe fuzzy fuzzySearchQuery) queryFiltered
  else
    List.insertionSort entryValueGe queryFiltered

/- ### Selection manager (json-renderer.tsx lines 1155–1191) -/

/-- Model of `Set.prototype.add` on the insertion-ordered list model of a JS `Set`. -/
def setAdd (s : List String) (i : String) : List String :=
  if s.contains i then s else s ++ [i]

/-- Model of `Set.prototype.delete`. -/
def setDelete (s : List String) (i : String) : List String :=
  s.filter (fun j => !(j == i))

/-- Model of the a-key branch of the multi-select chain (lines 1175–1190): when every
id on the current page is selected, delete exactly those ids; otherwise
add exactly those ids. -/
def toggleAllVisible (currentCustomerIds selectedCustomerIds : List String) : List String :=
  if currentCustomerIds.all (fun i => selectedCustomerIds.contains i) then
    currentCustomerIds.foldl setDelete selectedCustomerIds
  else
    currentCustomerIds.foldl setAdd selectedCustomerIds

/- ### Action-menu confirm dispatch (json-renderer.tsx lines 1003–1078) -/

/-- The observable dispatch decision of `handleOptionSelect` /
`handleBatchAction`: a batch run over a list of ids handed to
`executeBatchAction`, a single-handler call for one id, or no call. -/
inductive DispatchTarget where
  | batch (customerIds : List String)
  | single (customerId : String)
  | noop
deriving DecidableEq

/-- Model of `handleOptionSelect`: with multi-select active and a non-empty
selection it runs `handleBatchAction`, which restricts to
`currentCustomers.filter(c => selectedCustomerIds.has(c.customer.id))` and
returns without any call when that restriction is empty; otherwise the
single handler runs against the record under the cursor when one exists. -/
def handleOptionSelectStep (isMultiSelectMode : Bool)
    (selectedCustomerIds currentPageIds : List String) (selectedCustomerIndex : ℕ) :
    DispatchTarget :=
  if isMultiSelectMode = true ∧ 0 < selectedCustomerIds.length then
    let selectedOnPage := currentPageIds.filter (fun i => selectedCustomerIds.contains i)
    if selectedOnPage.isEmpty then .noop else .batch selectedOnPage
  else
    match currentPageIds.get? selectedCustomerIndex with
    | some cid => .single cid
    | none => .noop

/- ### Modal input router (json-renderer.tsx lines 1080–1238, `useInput`) -/

/-- One classified key event as delivered by the terminal UI layer:
the printable `input` string plus the special-key flags read by the
dispatcher (`key.return` is modelled as `ret`). -/
structure KeyEvent where
  input : String
  upArrow : Bool
  downArrow : Bool
  leftArrow : Bool
  rightArrow : Bool
  escape : Bool
  ret : Bool
deriving DecidableEq

/-- The complete `useState` state of `CustomerTable` together with the
state of the `useExternalActions` hook (the rendered dialog element
itself is presentation and not modelled). -/
structure BrowserState where
  currentPage : ℕ
  selectedCustomerIndex : ℕ
  hideZeroCreditUsers : Bool
  isFullScreenDetailsOpen : Bool
  isFuzzySearchMode : Bool
  fuzzySearchQuery : String
  isHelpOpen : Bool
  isMultiSelectMode : Bool
  selectedCustomerIds : List String
  isBatchMigrationInProgress : Bool
  migrationStatuses : MigMap
  isMenuOpen : Bool
  selectedActionIndex : ℕ
  isLoading : Bool
  currentStatus : Option String
  executingActionId : Option String
  isComponentDialogOpen : Bool
deriving DecidableEq

/-- Render-derived inputs the dispatcher reads: the ids of the current
page (`currentCustomers`), `totalPages`, and the number of configured
actions. -/
structure RouterEnv where
  pageIds : List String
  totalPages : ℕ
  numActions : ℕ

/-- A side effect the dispatcher fires without awaiting:
`handleOptionSelect()` on the confirm key of the open action menu. -/
inductive RouterCmd where
  | optionSelect
deriving DecidableEq

/-- Model of `closeMenu` of `useExternalActions`: a no-op while loading. -/
def closeMenu (st : BrowserState) : BrowserState :=
  if st.isLoading = false then
    { st with isMenuOpen := false, selectedActionIndex := 0,
              currentStatus := none, executingActionId := none }
  else st

/-- Model of the multi-select command chain (lines 1156–1191): the m key toggles
the mode (clearing the selection when leaving it), the s key toggles the id
under the cursor, the a key toggles all ids of the current page. -/
def multiSelectChain (env : RouterEnv) (st : BrowserState) (ev : KeyEvent) : BrowserState :=
  if ev.input = "m" ∨ ev.input = "M" then
    { st with isMultiSelectMode := !st.isMultiSelectMode,
              selectedCustomerIds := if st.isMultiSelectMode then [] else st.selectedCustomerIds }
  else if st.isMultiSelectMode = true ∧ (ev.input = "s" ∨ ev.input = "S") then
    match env.pageIds.get? st.selectedCustomerIndex with
    | some cid =>
      { st with selectedCustomerIds :=
          if st.selectedCustomerIds.contains cid then setDelete st.selectedCustomerIds cid
          else setAdd st.selectedCustomerIds cid }
    | none => st
  else if st.isMultiSelectMode = true ∧ (ev.input = "a" ∨ ev.input = "A") then
    { st with selectedCustomerIds := toggleAllVisible env.pageIds st.selectedCustomerIds }
  else st

/-- The base table-navigation chain (lines 1193–1238). -/
def navChain (env : RouterEnv) (st : BrowserState) (ev : KeyEvent) :
    BrowserState × Option RouterCmd :=
  if (ev.input = "l" ∨ ev.input = "L") ∧ st.selectedCustomerIndex < env.pageIds.length then
    ({ st with isFullScreenDetailsOpen := true }, none)
  else if ev.upArrow = true ∧ 0 < st.selectedCustomerIndex then
    ({ st with selectedCustomerIndex := st.selectedCustomerIndex - 1 }, none)
  else if ev.downArrow = true ∧ st.selectedCustomerIndex + 1 < env.pageIds.length then
    ({ st with selectedCustomerIndex := st.selectedCustomerIndex + 1 }, none)
  else if ev.leftArrow = true then
    (if 0 < st.currentPage then { st with currentPage := st.currentPage - 1 } else st, none)
  else if ev.rightArrow = true then
    (if st.currentPage + 1 < env.totalPages then { st with currentPage := st.currentPage + 1 } else st, none)
  else if ev.ret = true ∧ st.selectedCustomerIndex < env.pageIds.length then
    ({ st with isMenuOpen := true, selectedActionIndex := 0 }, none)
  else if ev.input = "i" ∨ ev.input = "I" then
    ({ st with hideZeroCreditUsers := !st.hideZeroCreditUsers }, none)
  else if ev.input = "f" ∨ ev.input = "F" then
    ({ st with isFuzzySearchMode := true, fuzzySearchQuery := "" }, none)
  else if ev.input = "c" ∨ ev.input = "C" then
    ({ st with fuzzySearchQuery := "", currentPage := 0, selectedCustomerIndex := 0 }, none)
  else if ev.input = "n" ∨ ev.input = "N" then
    (if st.currentPage + 1 < env.totalPages then { st with currentPage := st.currentPage + 1 } else st, none)
  else if ev.input = "p" ∨ ev.input = "P" then
    (if 0 < st.currentPage then { st with currentPage := st.currentPage - 1 } else st, none)
  else if ev.input = "h" ∨ ev.input = "H" then
    ({ st with isHelpOpen := true }, none)
  else (st, none)

/-- The action-menu branch (lines 1139–1153): navigation and dispatch are
gated on `!isLoading`; confirm fires `handleOptionSelect()`. -/
def menuBranch (env : RouterEnv) (st : BrowserState) (ev : KeyEvent) :
    BrowserState × Option RouterCmd :=
  if st.isLoading = false then
    if ev.upArrow then
      ({ st with selectedActionIndex :=
          if 0 < st.selectedActionIndex then st.selectedActionIndex - 1
          else st.selectedActionIndex }, none)
    else if ev.downArrow then
      ({ st with selectedActionIndex :=
          if st.selectedActionIndex + 1 < env.numActions then st.selectedActionIndex + 1
          else st.selectedActionIndex }, none)
    else if ev.ret then (st, some .optionSelect)
    else if ev.escape then (closeMenu st, none)
    else (st, none)
  else (st, none)

/-- The `useInput` dispatcher of `CustomerTable` (lines 1080–1238), as one
state-transition function.  Overlay branches are tried in source order;
the base case runs the multi-select chain and then the navigation chain
(two consecutive `if`-chains in the source whose read and written state
fields are disjoint).  Post-render `useEffect` resets (cursor on page
change, page and cursor on filter change) happen outside this dispatch
function and are not part of it. -/
def useInputStep (env : RouterEnv) (st : BrowserState) (ev : KeyEvent) :
    BrowserState × Option RouterCmd :=
  if st.isBatchMigrationInProgress = true then
    if ev.escape = true then
      ({ st with isBatchMigrationInProgress := false, migrationStatuses := [],
                 isMultiSelectMode := false, selectedCustomerIds := [] }, none)
    else (st, none)
  else if st.isHelpOpen = true then
    if ev.escape = true ∨ ev.input = "h" ∨ ev.input = "H" then
      ({ st with isHelpOpen := false }, none)
    else (st, none)
  else if st.isComponentDialogOpen = true then
    if ev.escape = true then ({ st with isComponentDialogOpen := false }, none)
    else (st, none)
  else if st.isFullScreenDetailsOpen = true then
    if ev.escape = true then ({ st with isFullScreenDetailsOpen := false }, none)
    else (st, none)
  else if st.isFuzzySearchMode = true then
    if ev.escape = true then ({ st with isFuzzySearchMode := false, fuzzySearchQuery := "" }, none)
    else (st, none)
  else if st.isMenuOpen = true then
    menuBranch env st ev
  else
    navChain env (multiSelectChain env st ev) ev

/- ### Concrete sample inputs used by witness and counterexample theorems -/

/-- A sample render environment: a two-row page, one page, one action. -/
def sampleEnv : RouterEnv := { pageIds := ["a", "b"], totalPages := 1, numActions := 1 }

/-- A sample state with the batch-progress overlay active. -/
def sampleBatchState : BrowserState :=
  { currentPage := 0, selectedCustomerIndex := 0, hideZeroCreditUsers := false,
    isFullScreenDetailsOpen := false, isFuzzySearchMode := false, fuzzySearchQuery := "",
    isHelpOpen := false, isMultiSelectMode := true, selectedCustomerIds := ["a"],
    isBatchMigrationInProgress := true,
    migrationStatuses := [("a", { status := .pending, message := none })],
    isMenuOpen := false, selectedActionIndex := 0, isLoading := false,
    currentStatus := none, executingActionId := none, isComponentDialogOpen := false }

/-- A sample non-escape key event (the letter q). -/
def sampleKeyQ : KeyEvent :=
  { input := "q", upArrow := false, downArrow := false, leftArrow := false,
    rightArrow := false, escape := false, ret := false }

/-- A sample escape key event. -/
def sampleKeyEsc : KeyEvent :=
  { input := "", upArrow := false, downArrow := false, leftArrow := false,
    rightArrow := false, escape := true, ret := false }

/-- Sample credit configuration: primary credit under key `"credit"`,
divisor 1. -/
def cexCreditConfig : CreditConfig :=
  { key := "credit", name := "Credits", displayName := "Credits", currency := "$", divisor := 1 }

/-- Sample credit system with no secondary credits. -/
def cexCreditSystem : CreditSystemConfig := { primary := cexCreditConfig, secondary := none }

/-- Sample customer: an active plan `"p"` and a credit balance of `-5`
(five credits used). -/
def cexCustomer : Customer :=
  { id := "u1", name := none, email := none,
    products := some [{ id := some "p", name := none, status := some "active", group := some "plan" }],
    features := fun k => if k = "credit" then some { balance := some (-5) } else none }

/-- Sample live plan prices: plan `"p"` priced at `-10`. -/
def cexPrices : String → Option ℚ := fun k => if k = "p" then some (-10) else none

/-- Sample fuzzy scorer (never matches; irrelevant for empty queries). -/
def cexFuzzy : String → String → Option ℚ := fun _ _ => none

/-- The sample filtered view: one customer, `hideZeroCreditUsers = true`,
empty query. -/
def cexView : List CustomerEntry :=
  sortedCustomers cexFuzzy cexCreditSystem cexPrices true "" [cexCustomer]

/- ### Helper lemmas about the status map -/

/-- Helper: `executeBatchFallback` agrees with the spec-side sequential
run over the well-formed pairs. -/
theorem executeBatchFallback_eq_seqRun {α : Type} (handler : String → α → Option String) :
    ∀ (ids : List String) (custs : List (Option α)),
      executeBatchFallback handler ids custs = seqRun handler (validPairs ids custs) := by
  intro ids
  induction ids with
  | nil => intro custs; rfl
  | cons cid ids ih =>
    intro custs
    cases custs with
    | nil =>
      simpa [executeBatchFallback, validPairs] using ih []
    | cons c? custs =>
      cases c? with
      | none => simpa [executeBatchFallback, validPairs] using ih custs
      | some c =>
        by_cases h : cid = ""
        · simpa [executeBatchFallback, validPairs, h] using ih custs
        · cases hh : handler cid c with
          | some e => simp [executeBatchFallback, validPairs, h, hh, seqRun]
          | none => simp [executeBatchFallback, validPairs, h, hh, seqRun, ih custs]

/-- Helper: the invocation trace is an order-preserving sublist of the
input id list. -/
theorem executeBatchFallback_trace_sublist {α : Type} (handler : String → α → Option String) :
    ∀ (ids : List String) (custs : List (Option α)),
      (executeBatchFallback handler ids custs).1.Sublist ids := by
  intro ids
  induction ids with
  | nil => intro custs; simp [executeBatchFallback]
  | cons cid ids ih =>
    intro custs
    cases custs with
    | nil =>
      exact List.Sublist.cons cid (ih [])
    | cons c? custs =>
      cases c? with
      | none => exact List.Sublist.cons cid (ih custs)
      | some c =>
        by_cases h : cid = ""
        · simp only [executeBatchFallback, h, if_pos]
          exact List.Sublist.cons _ (ih custs)
        · cases hh : handler cid c with
          | some e =>
            simp only [executeBatchFallback, h, if_neg, hh]
            simp
          | none =>
            simp only [executeBatchFallback, h, if_neg, hh]
            exact List.Sublist.cons₂ cid (ih custs)

/-- Membership in the key sequence after a `Map.set`. -/
theorem mem_mapKeys_mapSet (m : MigMap) (k : String) (v : StatusEntry) (j : String) :
    j ∈ mapKeys (mapSet m k v) ↔ j ∈ mapKeys m ∨ j = k := by
  unfold mapSet
  by_cases h : (m.any (fun p => p.1 == k)) = true
  · rw [if_pos h]
    have hk : k ∈ mapKeys m := by
      rcases List.any_eq_true.mp h with ⟨p, hp, hpk⟩
      have : p.1 = k := by simpa using hpk
      exact this ▸ List.mem_map_of_mem Prod.fst hp
    have hkeys : mapKeys (m.map (fun p => if p.1 == k then (k, v) else p)) = mapKeys m := by
      unfold mapKeys
      rw [List.map_map]
      apply List.map_congr_left
      intro p _
      by_cases hpk : p.1 = k
      · simp [hpk]
      · simp [hpk]
    rw [hkeys]
    constructor
    · exact Or.inl
    · rintro (hj | rfl)
      · exact hj
      · exact hk
  · rw [if_neg h]
    unfold mapKeys
    simp

/-- Membership in the key sequence after a run of status callbacks. -/
theorem mem_mapKeys_applyCallbacks (evs : List (String × String)) :
    ∀ (m : MigMap) (j : String),
      j ∈ mapKeys (applyCallbacks m evs) ↔ j ∈ mapKeys m ∨ j ∈ evs.map Prod.fst := by
  induction evs with
  | nil => intro m j; simp [applyCallbacks]
  | cons ev rest ih =>
    intro m j
    obtain ⟨cid, msg⟩ := ev
    calc j ∈ mapKeys (applyCallbacks (batchStatusCallback m cid msg) rest)
        ↔ j ∈ mapKeys (batchStatusCallback m cid msg) ∨ j ∈ rest.map Prod.fst := ih _ j
      _ ↔ (j ∈ mapKeys m ∨ j = cid) ∨ j ∈ rest.map Prod.fst := by
            rw [batchStatusCallback, mem_mapKeys_mapSet]
      _ ↔ j ∈ mapKeys m ∨ j ∈ ((cid, msg) :: rest).map Prod.fst := by
            simp only [List.map_cons, List.mem_cons]
            tauto

/-- Membership in the key sequence of the initial status map. -/
theorem mem_mapKeys_initStatuses (ids : List String) (j : String) :
    j ∈ mapKeys (initStatuses ids) ↔ j ∈ ids := by
  have general : ∀ (l : List String) (acc : MigMap),
      j ∈ mapKeys (l.foldl (fun m i => mapSet m i { status := .pending, message := none }) acc)
        ↔ j ∈ mapKeys acc ∨ j ∈ l := by
    intro l
    induction l with
    | nil => intro acc; simp
    | cons i rest ih =>
      intro acc
      rw [List.foldl_cons, ih, mem_mapKeys_mapSet]
      simp only [List.mem_cons]
      tauto
  have := general ids []
  simpa [initStatuses, mapKeys] using this

/-- One abort step never removes a key. -/
theorem mem_mapKeys_abortStep_mono (snap : MigMap) (errMsg : String) (acc : MigMap)
    (cid j : String) (hj : j ∈ mapKeys acc) :
    j ∈ mapKeys (abortStep snap errMsg acc cid) := by
  unfold abortStep
  split
  · exact (mem_mapKeys_mapSet _ _ _ j).mpr (Or.inl hj)
  · split
    · exact (mem_mapKeys_mapSet _ _ _ j).mpr (Or.inl hj)
    · exact hj

/-- Keys after one abort step come from the accumulator or the stepped
id. -/
theorem mem_mapKeys_abortStep_sub (snap : MigMap) (errMsg : String) (acc : MigMap)
    (cid j : String) (hj : j ∈ mapKeys (abortStep snap errMsg acc cid)) :
    j ∈ mapKeys acc ∨ j = cid := by
  unfold abortStep at hj
  split at hj
  · exact (mem_mapKeys_mapSet _ _ _ j).mp hj
  · split at hj
    · exact (mem_mapKeys_mapSet _ _ _ j).mp hj
    · exact Or.inl hj

/-- The abort path never removes a key. -/
theorem mem_mapKeys_abortHandler_mono (snap : MigMap) (errMsg : String) (ids : List String) :
    ∀ (live : MigMap) (j : String),
      j ∈ mapKeys live → j ∈ mapKeys (abortHandler snap ids errMsg live) := by
  induction ids with
  | nil => intro live j hj; simpa [abortHandler] using hj
  | cons i rest ih =>
    intro live j hj
    unfold abortHandler
    rw [List.foldl_cons]
    exact ih _ j (mem_mapKeys_abortStep_mono snap errMsg live i j hj)

/-- Keys reachable after the abort path come from the live map or the id
list. -/
theorem mem_mapKeys_abortHandler_sub (snap : MigMap) (errMsg : String) (ids : List String) :
    ∀ (live : MigMap) (j : String),
      j ∈ mapKeys (abortHandler snap ids errMsg live) → j ∈ mapKeys live ∨ j ∈ ids := by
  induction ids with
  | nil => intro live j hj; exact Or.inl (by simpa [abortHandler] using hj)
  | cons i rest ih =>
    intro live j hj
    unfold abortHandler at hj
    rw [List.foldl_cons] at hj
    rcases ih _ j hj with hm | hr
    · rcases mem_mapKeys_abortStep_sub snap errMsg live i j hm with hm2 | rfl
      · exact Or.inl hm2
      · exact Or.inr (List.mem_cons_self _ _)
    · exact Or.inr (List.mem_cons_of_mem _ hr)

/-- Every value the initial status map holds is `pending` with no
message. -/
theorem initStatuses_all_pending (ids : List String) :
    (initStatuses ids).all
      (fun p => p.2 == ({ status := .pending, message := none } : StatusEntry)) = true := by
  have general : ∀ (l : List String) (acc : MigMap),
      acc.all (fun p => p.2 == ({ status := .pending, message := none } : StatusEntry)) = true →
      (l.foldl (fun m i => mapSet m i { status := .pending, message := none }) acc).all
        (fun p => p.2 == ({ status := .pending, message := none } : StatusEntry)) = true := by
    intro l
    induction l with
    | nil => intro acc h; simpa using h
    | cons i rest ih =>
      intro acc h
      rw [List.foldl_cons]
      apply ih
      unfold mapSet
      by_cases hc : (acc.any (fun p => p.1 == i)) = true
      · rw [if_pos hc]
        rw [List.all_eq_true] at h ⊢
        intro p hp
        rcases List.mem_map.mp hp with ⟨q, hq, hqp⟩
        by_cases hqi : q.1 = i
        · simp only [hqi, beq_self_eq_true, if_pos] at hqp
          subst hqp
          simp
        · simp only [beq_eq_false_iff_ne, ne_eq] at hqi ⊢
          rw [if_neg (by simpa using hqi)] at hqp
          subst hqp
          exact h q hq
      · rw [if_neg hc]
        rw [List.all_eq_true] at h ⊢
        intro p hp
        rcases List.mem_append.mp hp with hl | hr
        · exact h p hl
        · rcases List.mem_singleton.mp hr with rfl
          simp
  simpa [initStatuses] using general ids [] (by simp)

/- ### Claim theorems -/

/-- C4: the classifier yields `failed` iff the message starts with
`"ERROR:"` or contains `"failed"`; yields `completed` iff it is not
classified `failed` and contains `"completed successfully"` or
`"No migration required"`; yields `in_progress` otherwise.  In particular
`"ERROR: timeout"` is `failed`, `"Migration completed successfully"` is
`completed`, and `"retrying, attempt 2"` is `in_progress`. -/
theorem classifier_spec :
    (∀ m : String,
      (classifyStatus m = .failed ↔ (jsStartsWith m "ERROR:" = true ∨ jsIncludes m "failed" = true))
      ∧ (classifyStatus m = .completed ↔
          ((jsStartsWith m "ERROR:" || jsIncludes m "failed") = false
            ∧ (jsIncludes m "completed successfully" = true ∨ jsIncludes m "No migration required" = true)))
      ∧ (classifyStatus m = .in_progress ↔
          ((jsStartsWith m "ERROR:" || jsIncludes m "failed") = false
            ∧ (jsIncludes m "completed successfully" || jsIncludes m "No migration required") = false)))
    ∧ classifyStatus "ERROR: timeout" = .failed
    ∧ classifyStatus "Migration completed successfully" = .completed
    ∧ classifyStatus "retrying, attempt 2" = .in_progress := by
  refine ⟨?_, by decide, by decide, by decide⟩
  intro m
  unfold classifyStatus
  cases h1 : jsStartsWith m "ERROR:" || jsIncludes m "failed" with
  | true =>
    have hd : jsStartsWith m "ERROR:" = true ∨ jsIncludes m "failed" = true := by
      simpa using h1
    exact ⟨iff_of_true (by simp) hd, by simp, by simp⟩
  | false =>
    have h1c : jsStartsWith m "ERROR:" = false ∧ jsIncludes m "failed" = false := by
      simpa using h1
    cases h2 : jsIncludes m "completed successfully" || jsIncludes m "No migration required" with
    | true =>
      have hd2 : jsIncludes m "completed successfully" = true ∨ jsIncludes m "No migration required" = true := by
        simpa using h2
      exact ⟨by simp [h1c.1, h1c.2], iff_of_true (by simp) ⟨rfl, hd2⟩, by simp⟩
    | false =>
      have h2c : jsIncludes m "completed successfully" = false ∧ jsIncludes m "No migration required" = false := by
        simpa using h2
      exact ⟨by simp [h1c.1, h1c.2], by simp [h2c.1, h2c.2], iff_of_true (by simp) ⟨rfl, rfl⟩⟩

/-- C5: the fallback batch path is exactly a strictly sequential run over
the well-formed id/record pairs in input order — malformed pairs are
skipped without aborting, a thrown error stops the loop at that position
and propagates — and the invocation trace is an order-preserving sublist
of the input id list. -/
theorem fallback_sequential_spec {α : Type} (handler : String → α → Option String)
    (ids : List String) (custs : List (Option α)) :
    executeBatchFallback handler ids custs = seqRun handler (validPairs ids custs)
    ∧ (executeBatchFallback handler ids custs).1.Sublist ids :=
  ⟨executeBatchFallback_eq_seqRun handler ids custs,
   executeBatchFallback_trace_sublist handler ids custs⟩

/-- C1 (code bug): in a five-id batch whose callbacks reported ids `"c1"`
and `"c2"` as completed before the call threw `"boom"`, the live map
indeed held `completed` for `"c1"` at the moment of the throw, yet the
catch handler — reading the stale captured (pre-batch, empty) map —
force-sets ALL five ids to `failed` with the thrown message, overwriting
the two completed entries the claim says are left untouched. -/
theorem batchAbort_stale_overwrite_eval :
    mapGet (applyCallbacks (initStatuses ["c1", "c2", "c3", "c4", "c5"])
        [("c1", "Migration completed successfully"), ("c2", "Migration completed successfully")]) "c1"
      = some { status := .completed, message := some "Migration completed successfully" }
    ∧ mapGet (runMigrationBatch [] ["c1", "c2", "c3", "c4", "c5"]
        [("c1", "Migration completed successfully"), ("c2", "Migration completed successfully")]
        (some "boom")) "c1"
      = some { status := .failed, message := some "boom" }
    ∧ mapGet (runMigrationBatch [] ["c1", "c2", "c3", "c4", "c5"]
        [("c1", "Migration completed successfully"), ("c2", "Migration completed successfully")]
        (some "boom")) "c2"
      = some { status := .failed, message := some "boom" }
    ∧ mapGet (runMigrationBatch [] ["c1", "c2", "c3", "c4", "c5"]
        [("c1", "Migration completed successfully"), ("c2", "Migration completed successfully")]
        (some "boom")) "c3"
      = some { status := .failed, message := some "boom" } := by
  refine ⟨?_, ?_, ?_, ?_⟩ <;> decide

/-- C3 (counterexample): a status-callback invocation whose id `"b"` is
not in the start set `["a"]` adds the key `"b"` to the status map — the
key set does not remain the start set. -/
theorem statusMap_keys_counterexample :
    mapKeys (runMigrationBatch [] ["a"] [("b", "working")] none) = ["a", "b"]
    ∧ ((["a"] : List String).contains "b") = false := by
  constructor <;> decide

/-- C3 (amended): the status map starts with exactly the ids of the batch, all
`pending`; and as long as the id of every callback invocation lies in the start
set, the key set stays exactly the start set through callbacks and through
the abort path.  (A callback with an id outside the start set, however,
adds that id: the source callback does not filter.) -/
theorem statusMap_keys_amended_spec (snap : MigMap) (ids : List String)
    (events : List (String × String)) (err : Option String)
    (h : ∀ p ∈ events, p.1 ∈ ids) :
    ((initStatuses ids).all
        (fun p => p.2 == ({ status := .pending, message := none } : StatusEntry)) = true)
    ∧ ∀ k, k ∈ mapKeys (runMigrationBatch snap ids events err) ↔ k ∈ ids := by
  refine ⟨initStatuses_all_pending ids, ?_⟩
  intro k
  have hlive : ∀ j, j ∈ mapKeys (applyCallbacks (initStatuses ids) events) ↔ j ∈ ids := by
    intro j
    rw [mem_mapKeys_applyCallbacks, mem_mapKeys_initStatuses]
    constructor
    · rintro (hj | hj)
      · exact hj
      · rcases List.mem_map.mp hj with ⟨p, hp, rfl⟩
        exact h p hp
    · exact Or.inl
  unfold runMigrationBatch
  cases err with
  | none => exact hlive k
  | some e =>
    constructor
    · intro hk
      rcases mem_mapKeys_abortHandler_sub snap e ids _ k hk with hm | hi
      · exact (hlive k).mp hm
      · exact hi
    · intro hk
      exact mem_mapKeys_abortHandler_mono snap e ids _ k ((hlive k).mpr hk)

/-- C3 (witness): concrete instantiation of the amended key-stability
theorem at a one-id batch with one in-set callback. -/
theorem statusMap_keys_amended_witness :
    (("a" : String) ∈ mapKeys (runMigrationBatch [] ["a"] [("a", "working")] none) ↔ ("a" : String) ∈ (["a"] : List String))
    ∧ (("z" : String) ∈ mapKeys (runMigrationBatch [] ["a"] [("a", "working")] none) ↔ ("z" : String) ∈ (["a"] : List String)) :=
  ⟨(statusMap_keys_amended_spec [] ["a"] [("a", "working")] none (by decide)).2 "a",
   (statusMap_keys_amended_spec [] ["a"] [("a", "working")] none (by decide)).2 "z"⟩

/-- C6 (code bug): `batchStatusCallback` carries no session token and
writes unconditionally into the live map.  After a new session initialises
its map to `{"x" ↦ pending}`, a stale callback from the previous run for
id `"a"` lands in the map of the new session, adding `"a"` as `failed`. -/
theorem staleUpdate_applied_eval :
    mapGet (initStatuses ["x"]) "a" = none
    ∧ batchStatusCallback (initStatuses ["x"]) "a" "operation failed"
      = [("x", { status := .pending, message := none }),
         ("a", { status := .failed, message := some "operation failed" })] := by
  constructor <;> decide

/-- Membership after `Set.add`. -/
theorem mem_setAdd (s : List String) (i j : String) : j ∈ setAdd s i ↔ j ∈ s ∨ j = i := by
  unfold setAdd
  cases hc : s.contains i with
  | true =>
    rw [if_pos rfl]
    have hi : i ∈ s := by simpa using hc
    constructor
    · exact Or.inl
    · rintro (hj | rfl)
      · exact hj
      · exact hi
  | false =>
    rw [if_neg (by simp)]
    simp

/-- Membership after `Set.delete`. -/
theorem mem_setDelete (s : List String) (i j : String) : j ∈ setDelete s i ↔ j ∈ s ∧ j ≠ i := by
  simp [setDelete, List.mem_filter]

/-- Membership after deleting every id of a list. -/
theorem mem_foldl_setDelete (l : List String) :
    ∀ (s : List String) (j : String), j ∈ l.foldl setDelete s ↔ j ∈ s ∧ j ∉ l := by
  induction l with
  | nil => intro s j; simp
  | cons i rest ih =>
    intro s j
    rw [List.foldl_cons, ih, mem_setDelete]
    simp only [List.mem_cons]
    tauto

/-- Membership after adding every id of a list. -/
theorem mem_foldl_setAdd (l : List String) :
    ∀ (s : List String) (j : String), j ∈ l.foldl setAdd s ↔ j ∈ s ∨ j ∈ l := by
  induction l with
  | nil => intro s j; simp
  | cons i rest ih =>
    intro s j
    rw [List.foldl_cons, ih, mem_setAdd]
    simp only [List.mem_cons]
    tauto

/-- Behaviour of `toggleAllVisible` when every page id is selected: the page ids are
removed. -/
theorem mem_toggleAllVisible_of_all (page sel : List String)
    (h : ∀ i ∈ page, i ∈ sel) (j : String) :
    j ∈ toggleAllVisible page sel ↔ j ∈ sel ∧ j ∉ page := by
  have hb : page.all (fun i => sel.contains i) = true := by
    rw [List.all_eq_true]
    intro i hi
    simpa using h i hi
  unfold toggleAllVisible
  rw [if_pos hb]
  exact mem_foldl_setDelete page sel j

/-- Behaviour of `toggleAllVisible` when some page id is unselected: the page ids are
added. -/
theorem mem_toggleAllVisible_of_not_all (page sel : List String)
    (h : ¬ ∀ i ∈ page, i ∈ sel) (j : String) :
    j ∈ toggleAllVisible page sel ↔ j ∈ sel ∨ j ∈ page := by
  have hb : ¬ (page.all (fun i => sel.contains i) = true) := by
    intro hc
    apply h
    intro i hi
    have := List.all_eq_true.mp hc i hi
    simpa using this
  unfold toggleAllVisible
  rw [if_neg hb]
  exact mem_foldl_setAdd page sel j

/-- C9 (counterexample): with page `["a","b"]` and the partial selection
`["a"]`, the first toggle selects everything, the second deselects
everything — id `"a"` was selected before the pair and is not selected
after it, so the pair does not restore the original membership. -/
theorem toggleAllVisible_counterexample :
    toggleAllVisible ["a", "b"] ["a"] = ["a", "b"]
    ∧ toggleAllVisible ["a", "b"] ["a", "b"] = []
    ∧ ((["a"] : List String).contains "a") = true
    ∧ ((toggleAllVisible ["a", "b"] (toggleAllVisible ["a", "b"] ["a"])).contains "a") = false := by
  refine ⟨?_, ?_, ?_, ?_⟩ <;> decide

/-- C9 (amended): a single toggle never touches ids off the current page;
the toggle pair restores the membership of every current-page id when the page
ids were all selected, and also when none of them was selected; when the
page was only partially selected, the pair leaves every current-page id
unselected. -/
theorem toggleAllVisible_amended_spec (pageIds selected : List String) :
    (∀ i, i ∉ pageIds → ((i ∈ toggleAllVisible pageIds selected) ↔ i ∈ selected))
    ∧ ((∀ i ∈ pageIds, i ∈ selected) →
        ∀ i, (i ∈ toggleAllVisible pageIds (toggleAllVisible pageIds selected) ↔ i ∈ selected))
    ∧ ((∀ i ∈ pageIds, i ∉ selected) →
        ∀ i, (i ∈ toggleAllVisible pageIds (toggleAllVisible pageIds selected) ↔ i ∈ selected))
    ∧ ((¬ ∀ i ∈ pageIds, i ∈ selected) →
        ∀ i ∈ pageIds, i ∉ toggleAllVisible pageIds (toggleAllVisible pageIds selected)) := by
  by_cases hall : ∀ i ∈ pageIds, i ∈ selected
  · have hT1 : ∀ j, j ∈ toggleAllVisible pageIds selected ↔ j ∈ selected ∧ j ∉ pageIds :=
      mem_toggleAllVisible_of_all pageIds selected hall
    have hT2 : ∀ j, j ∈ toggleAllVisible pageIds (toggleAllVisible pageIds selected) ↔ j ∈ selected := by
      by_cases hpage : pageIds = []
      · subst hpage
        intro j
        have hall2 : ∀ i ∈ ([] : List String), i ∈ toggleAllVisible [] selected := by
          intro i hi
          cases hi
        rw [mem_toggleAllVisible_of_all [] _ hall2 j, hT1 j]
        simp
      · obtain ⟨p, hp⟩ := List.exists_mem_of_ne_nil pageIds hpage
        intro j
        have hnot : ¬ ∀ i ∈ pageIds, i ∈ toggleAllVisible pageIds selected := by
          intro hc
          have := (hT1 p).mp (hc p hp)
          exact this.2 hp
        rw [mem_toggleAllVisible_of_not_all pageIds _ hnot j, hT1 j]
        by_cases hjp : j ∈ pageIds
        · exact iff_of_true (Or.inr hjp) (hall j hjp)
        · tauto
    refine ⟨?_, ?_, ?_, ?_⟩
    · intro i hi
      rw [hT1 i]
      tauto
    · intro _ i
      exact hT2 i
    · intro hnone i
      exact hT2 i
    · intro hn
      exact absurd hall hn
  · have hT1 : ∀ j, j ∈ toggleAllVisible pageIds selected ↔ j ∈ selected ∨ j ∈ pageIds :=
      mem_toggleAllVisible_of_not_all pageIds selected hall
    have hall2 : ∀ i ∈ pageIds, i ∈ toggleAllVisible pageIds selected := by
      intro i hi
      exact (hT1 i).mpr (Or.inr hi)
    have hT2 : ∀ j, j ∈ toggleAllVisible pageIds (toggleAllVisible pageIds selected)
        ↔ (j ∈ selected ∨ j ∈ pageIds) ∧ j ∉ pageIds := by
      intro j
      rw [mem_toggleAllVisible_of_all pageIds _ hall2 j, hT1 j]
    refine ⟨?_, ?_, ?_, ?_⟩
    · intro i hi
      rw [hT1 i]
      tauto
    · intro hsel
      exact absurd hsel hall
    · intro hnone i
      rw [hT2 i]
      by_cases hip : i ∈ pageIds
      · exact iff_of_false (by tauto) (hnone i hip)
      · tauto
    · intro _ i hi
      rw [hT2 i]
      tauto

/-- C9 (witness): concrete instantiations of the amended toggle theorem —
frame off-page, restore on fully selected, restore on fully unselected,
clear on partial selection. -/
theorem toggleAllVisible_amended_witness :
    (("z" : String) ∈ toggleAllVisible ["a"] ["c"] ↔ ("z" : String) ∈ (["c"] : List String))
    ∧ (("a" : String) ∈ toggleAllVisible ["a"] (toggleAllVisible ["a"] ["a"]) ↔ ("a" : String) ∈ (["a"] : List String))
    ∧ (("a" : String) ∈ toggleAllVisible ["a"] (toggleAllVisible ["a"] ["c"]) ↔ ("a" : String) ∈ (["c"] : List String))
    ∧ ((toggleAllVisible ["a", "b"] (toggleAllVisible ["a", "b"] ["a"])).contains "a") = false :=
  ⟨(toggleAllVisible_amended_spec ["a"] ["c"]).1 "z" (by decide),
   (toggleAllVisible_amended_spec ["a"] ["a"]).2.1 (by decide) "a",
   (toggleAllVisible_amended_spec ["a"] ["c"]).2.2.1 (by decide) "a",
   by simpa using (toggleAllVisible_amended_spec ["a", "b"] ["a"]).2.2.2 (by decide) "a" (by decide)⟩

/-- C2 (counterexample): with multi-select on, selection `["a","x"]` and
current page `["a","b"]` (so `"x"` was selected on another page of the
filtered view), confirm dispatches a batch over `["a"]` only — not over
the full selected set `["a","x"]`; and when no selected id is on the
current page, nothing is dispatched at all. -/
theorem executeSelected_counterexample :
    handleOptionSelectStep true ["a", "x"] ["a", "b"] 0 = DispatchTarget.batch ["a"]
    ∧ decide (handleOptionSelectStep true ["a", "x"] ["a", "b"] 0 = DispatchTarget.batch ["a", "x"]) = false
    ∧ ((["a", "x"] : List String).contains "x") = true
    ∧ ((["a", "b"] : List String).contains "x") = false
    ∧ handleOptionSelectStep true ["x"] ["a", "b"] 0 = DispatchTarget.noop := by
  refine ⟨?_, ?_, ?_, ?_, ?_⟩ <;> decide

/-- C2 (amended): with multi-select active and a non-empty selection,
confirm dispatches a batch over exactly the selected ids of the *current
page* (no call at all when that restriction is empty); the batch id list
contains an id iff it is on the current page and selected; with
multi-select off or an empty selection, the single handler runs against
the record under the cursor when one exists. -/
theorem executeSelected_amended_spec (multi : Bool) (selected pageIds : List String)
    (cursor : ℕ) :
    (multi = true → 0 < selected.length →
      handleOptionSelectStep multi selected pageIds cursor =
        (if (pageIds.filter (fun i => selected.contains i)).isEmpty then DispatchTarget.noop
         else DispatchTarget.batch (pageIds.filter (fun i => selected.contains i))))
    ∧ (∀ i, (i ∈ pageIds.filter (fun i => selected.contains i)) ↔ (i ∈ pageIds ∧ i ∈ selected))
    ∧ ((multi = false ∨ selected.length = 0) →
        handleOptionSelectStep multi selected pageIds cursor =
          (pageIds.get? cursor).elim DispatchTarget.noop DispatchTarget.single) := by
  refine ⟨?_, ?_, ?_⟩
  · intro hm hs
    unfold handleOptionSelectStep
    rw [if_pos ⟨hm, hs⟩]
  · intro i
    simp [List.mem_filter]
  · intro hcase
    unfold handleOptionSelectStep
    rw [if_neg (by rcases hcase with h | h <;> simp [h])]
    cases hg : pageIds.get? cursor with
    | none => simp [hg]
    | some cid => simp [hg]

/-- C2 (witness): concrete instantiations of the amended dispatch theorem
for the batch case and the single case. -/
theorem executeSelected_amended_witness :
    (handleOptionSelectStep true ["a", "x"] ["a", "b"] 0 =
      (if ((["a", "b"] : List String).filter (fun i => (["a", "x"] : List String).contains i)).isEmpty
       then DispatchTarget.noop
       else DispatchTarget.batch ((["a", "b"] : List String).filter (fun i => (["a", "x"] : List String).contains i))))
    ∧ (handleOptionSelectStep false ["a", "x"] ["a", "b"] 0 =
        ((["a", "b"] : List String).get? 0).elim DispatchTarget.noop DispatchTarget.single) :=
  ⟨(executeSelected_amended_spec true ["a", "x"] ["a", "b"] 0).1 rfl (by decide),
   (executeSelected_amended_spec false ["a", "x"] ["a", "b"] 0).2.2 (Or.inl rfl)⟩

/-- C7: while the batch-progress overlay is active, the dispatcher handles
only escape — escape closes the overlay, empties the status map, turns
multi-select off and clears the selection, changing nothing else and
firing no command; every other key leaves the state entirely unchanged. -/
theorem batchProgress_input_spec (env : RouterEnv) (st : BrowserState) (ev : KeyEvent)
    (h : st.isBatchMigrationInProgress = true) :
    useInputStep env st ev =
      (if ev.escape = true then
        ({ st with isBatchMigrationInProgress := false, migrationStatuses := [],
                   isMultiSelectMode := false, selectedCustomerIds := [] }, none)
       else (st, none)) := by
  unfold useInputStep
  rw [if_pos h]

/-- C7 (witness): a concrete batch-progress state — the letter q changes
nothing; escape resets exactly the four batch/selection fields. -/
theorem batchProgress_input_witness :
    sampleBatchState.isBatchMigrationInProgress = true
    ∧ useInputStep sampleEnv sampleBatchState sampleKeyQ = (sampleBatchState, none)
    ∧ useInputStep sampleEnv sampleBatchState sampleKeyEsc =
        ({ sampleBatchState with
            isBatchMigrationInProgress := false, migrationStatuses := [],
            isMultiSelectMode := false, selectedCustomerIds := [] }, none) := by
  refine ⟨rfl, ?_, ?_⟩
  · have h := batchProgress_input_spec sampleEnv sampleBatchState sampleKeyQ rfl
    simpa [sampleKeyQ] using h
  · have h := batchProgress_input_spec sampleEnv sampleBatchState sampleKeyEsc rfl
    simpa [sampleKeyEsc] using h

/-- Lemma: `Math.max(0, ·)` is never negative. -/
theorem jsMax_zero_nonneg (b : ℚ) : 0 ≤ jsMax 0 b := by
  unfold jsMax
  by_cases h : (0 : ℚ) ≤ b
  · rw [if_pos h]
    exact h
  · rw [if_neg h]

/-- A per-feature credit amount is never negative. -/
theorem featureCreditAmount_nonneg (credit : Option CreditFeature) (divisor : ℚ) :
    0 ≤ featureCreditAmount credit divisor := by
  unfold featureCreditAmount
  cases credit with
  | none => exact le_refl 0
  | some c => exact jsMax_zero_nonneg _

/-- A feature without a balance contributes amount `0`. -/
theorem featureCreditAmount_balance_none (credit : Option CreditFeature) (divisor : ℚ)
    (h : (credit.map (fun c => c.balance)).getD none = none) :
    featureCreditAmount credit divisor = 0 := by
  unfold featureCreditAmount
  cases credit with
  | none => rfl
  | some c =>
    simp at h
    simp [h, jsMax]

/-- Folding `+ amount` equals adding the sum of the amounts. -/
theorem foldl_add_snd (l : List (CreditConfig × ℚ)) :
    ∀ init : ℚ, l.foldl (fun sum sc => sum + sc.2) init = init + (l.map Prod.snd).sum := by
  induction l with
  | nil => intro init; simp
  | cons sc rest ih =>
    intro init
    rw [List.foldl_cons, ih]
    simp [List.map_cons, List.sum_cons]
    ring

/-- C10 (implicit): credit amounts are computed as
`max(0, -balance/divisor)`, so the primary amount, every secondary amount,
`getCreditBalance`, and the total (the primary amount plus the sum of the
secondary amounts) are all nonnegative; a customer whose features are all
missing, or all balance-less, has total `0`. -/
theorem customerCredits_nonneg_spec (customer : Customer) (config : CreditSystemConfig)
    (creditKey : String) (divisor : ℚ) :
    0 ≤ (getCustomerCredits customer config).primaryAmount
    ∧ ((getCustomerCredits customer config).secondary.all (fun sc => decide (0 ≤ sc.2))) = true
    ∧ (getCustomerCredits customer config).total
        = (getCustomerCredits customer config).primaryAmount
          + ((getCustomerCredits customer config).secondary.map Prod.snd).sum
    ∧ 0 ≤ (getCustomerCredits customer config).total
    ∧ 0 ≤ getCreditBalance customer creditKey divisor
    ∧ (getCustomerCredits { customer with features := fun _ => none } config).total = 0
    ∧ (getCustomerCredits
        { customer with
            features := fun k => (customer.features k).map (fun _ => { balance := none }) }
        config).total = 0 := by
  have hsec : ∀ (c : Customer), ∀ sc ∈ (getCustomerCredits c config).secondary, 0 ≤ sc.2 := by
    intro c sc hsc
    simp only [getCustomerCredits, List.mem_map] at hsc
    rcases hsc with ⟨cc, _, rfl⟩
    exact featureCreditAmount_nonneg _ _
  have htotal : ∀ (c : Customer),
      (getCustomerCredits c config).total
        = (getCustomerCredits c config).primaryAmount
          + ((getCustomerCredits c config).secondary.map Prod.snd).sum := by
    intro c
    simp only [getCustomerCredits]
    rw [foldl_add_snd]
    ring
  refine ⟨?_, ?_, htotal customer, ?_, ?_, ?_, ?_⟩
  · exact featureCreditAmount_nonneg _ _
  · rw [List.all_eq_true]
    intro sc hsc
    simpa using hsec customer sc hsc
  · rw [htotal customer]
    have h1 : 0 ≤ (getCustomerCredits customer config).primaryAmount :=
      featureCreditAmount_nonneg _ _
    have h2 : 0 ≤ ((getCustomerCredits customer config).secondary.map Prod.snd).sum := by
      apply List.sum_nonneg
      intro x hx
      rcases List.mem_map.mp hx with ⟨sc, hsc, rfl⟩
      exact hsec customer sc hsc
    linarith
  · exact featureCreditAmount_nonneg _ _
  · rw [htotal _]
    have hp : (getCustomerCredits { customer with features := fun _ => none } config).primaryAmount = 0 := by
      simp [getCustomerCredits, featureCreditAmount]
    have hs : ∀ x ∈ ((getCustomerCredits { customer with features := fun _ => none } config).secondary.map Prod.snd), x = 0 := by
      intro x hx
      rcases List.mem_map.mp hx with ⟨sc, hsc, rfl⟩
      simp only [getCustomerCredits, List.mem_map] at hsc
      rcases hsc with ⟨cc, _, rfl⟩
      simp [featureCreditAmount]
    rw [hp, List.sum_eq_zero hs]
    ring
  · rw [htotal _]
    have hp : (getCustomerCredits
        { customer with
            features := fun k => (customer.features k).map (fun _ => { balance := none }) }
        config).primaryAmount = 0 := by
      simp only [getCustomerCredits]
      apply featureCreditAmount_balance_none
      cases customer.features config.primary.key <;> simp
    have hs : ∀ x ∈ ((getCustomerCredits
        { customer with
            features := fun k => (customer.features k).map (fun _ => { balance := none }) }
        config).secondary.map Prod.snd), x = 0 := by
      intro x hx
      rcases List.mem_map.mp hx with ⟨sc, hsc, rfl⟩
      simp only [getCustomerCredits, List.mem_map] at hsc
      rcases hsc with ⟨cc, _, rfl⟩
      apply featureCreditAmount_balance_none
      cases customer.features cc.key <;> simp
    rw [hp, List.sum_eq_zero hs]
    ring

/-- C8 (amended): the filtered view never exceeds the source list in
length; with the zero-filter active every visible entry has a strictly
positive credit aggregate `creditsUsed` (the quantity the zero-filter
actually tests); and with an inactive (whitespace-only or empty) query the
view is sorted by descending `totalValue`. -/
theorem filter_pipeline_amended_spec (fuzzy : String → String → Option ℚ)
    (cfg : CreditSystemConfig) (prices : String → Option ℚ) (hideZero : Bool)
    (query : String) (records : List Customer) :
    (sortedCustomers fuzzy cfg prices hideZero query records).length ≤ records.length
    ∧ ((sortedCustomers fuzzy cfg prices true query records).all
        (fun e => decide (0 < e.creditsUsed))) = true
    ∧ List.Sorted entryValueGe (sortedCustomers fuzzy cfg prices hideZero "" records) := by
  refine ⟨?_, ?_, ?_⟩
  · have hlen : ∀ (p q : CustomerEntry → Bool),
        (((records.map (mkCustomerEntry cfg prices)).filter p).filter q).length ≤ records.length := by
      intro p q
      calc (((records.map (mkCustomerEntry cfg prices)).filter p).filter q).length
          ≤ ((records.map (mkCustomerEntry cfg prices)).filter p).length :=
            List.length_filter_le _ _
        _ ≤ (records.map (mkCustomerEntry cfg prices)).length := List.length_filter_le _ _
        _ = records.length := List.length_map _ _
    simp only [sortedCustomers]
    split
    · rw [(List.perm_insertionSort (scoreGe fuzzy query) _).length_eq]
      exact hlen _ _
    · rw [(List.perm_insertionSort entryValueGe _).length_eq]
      exact hlen _ _
  · rw [List.all_eq_true]
    intro e he
    simp only [sortedCustomers] at he
    have he2 : e ∈ ((records.map (mkCustomerEntry cfg prices)).filter
        (fun e => !true || decide (0 < e.creditsUsed))).filter
        (fun e => !trimNonEmpty query || (fuzzy query e.searchableText).isSome) := by
      rcases (by exact he :
          e ∈ if trimNonEmpty query = true then _ else _) with he3
      split at he3
      · exact ((List.perm_insertionSort (scoreGe fuzzy query) _).mem_iff).mp he3
      · exact ((List.perm_insertionSort entryValueGe _).mem_iff).mp he3
    have he4 := (List.mem_filter.mp (List.mem_filter.mp he2).1).2
    simpa using he4
  · have hq : trimNonEmpty "" = false := rfl
    simp only [sortedCustomers, hq]
    simp only [Bool.false_eq_true, if_false]
    exact List.sorted_insertionSort entryValueGe _

/-- C8 (counterexample): with the zero-filter active, the sample customer
passes the filter (it has `creditsUsed = 5 > 0`) yet its `computedValue`
used for sorting — the `totalValue` — is `-5`, which is not strictly
positive: the live plan price `-10` outweighs the credits. -/
theorem filter_pipeline_counterexample :
    cexView.map (fun e => e.creditsUsed) = [5]
    ∧ cexView.map (fun e => e.totalValue) = [-5]
    ∧ decide ((0 : ℚ) < -5) = false := by
  have hcred : (getCustomerCredits cexCustomer cexCreditSystem).total = 5 := by
    simp [getCustomerCredits, featureCreditAmount, cexCustomer, cexCreditSystem,
      cexCreditConfig, jsMax]
  have hplan : getPlanPrice cexPrices ((cexCustomer.products.getD []).find?
      (fun p => p.status == some "active" && p.group == some "plan")) = -10 := by
    simp [getPlanPrice, strTruthy, cexCustomer, cexPrices, List.find?]
  have hused : (mkCustomerEntry cexCreditSystem cexPrices cexCustomer).creditsUsed = 5 := by
    simp only [mkCustomerEntry]
    exact hcred
  have htot : (mkCustomerEntry cexCreditSystem cexPrices cexCustomer).totalValue = -5 := by
    simp only [mkCustomerEntry]
    rw [hplan, hcred]
    norm_num
  have hview : cexView = [mkCustomerEntry cexCreditSystem cexPrices cexCustomer] := by
    simp [cexView, sortedCustomers, trimNonEmpty, hused]
  rw [hview]
  refine ⟨?_, ?_, by norm_num⟩
  · simp [hused]
  · simp [htot]
